import Mathlib

/-!
Verification of the mount abstraction and unified storage-access dispatch
layer of curvine, shallowly embedded from:
  - src/curvine-common/src/state/mount.rs
  - src/curvine-client/src/unified/mod.rs

Rust strings are embedded as Lean `String` (for enum parsing, configuration
maps and formatted values) or `List Char` (for path manipulation, where
character-level reasoning is needed; a Rust `String` is a sequence of
characters either way).  Fallible Rust functions returning
`CommonResult`/`FsResult` are embedded as `Except`.
-/

namespace Curvine

/-! ## Enumerations (mount.rs) -/

/-- `MountType` from mount.rs: `Cst = 0` (default), `Orch = 1`. -/
inductive MountType
  | Cst
  | Orch
deriving DecidableEq, Repr

/-- `ConsistencyStrategy` from mount.rs: `None = 0` (default), `Always = 1`. -/
inductive ConsistencyStrategy
  | None
  | Always
deriving DecidableEq, Repr

/-- `Provider` from mount.rs: `Auto` (default), `OssHdfs`, `Opendal`. -/
inductive Provider
  | Auto
  | OssHdfs
  | Opendal
deriving DecidableEq, Repr

/-- `WriteType` from mount.rs: `Cache = 0`, `Through = 1`,
`AsyncThrough = 2` (default), `CacheThrough = 3`. -/
inductive WriteType
  | Cache
  | Through
  | AsyncThrough
  | CacheThrough
deriving DecidableEq, Repr

/-- Modelled from the spec: `TtlAction` (from `crate::state`, not under src/)
is the "policy applied to cached data once its time-to-live elapses"; the
variants used by the mounted code are `None` (no action, the `unwrap_or`
fallback in `MountOptions::to_info`) and `Delete` (the builder default). -/
inductive TtlAction
  | None
  | Delete
deriving DecidableEq, Repr

/-- Modelled from the spec: `StorageType` (from `crate::state`, not under
src/) is an opaque storage-tier policy value; the mount layer only stores and
copies it, never inspects it, so it is embedded as an opaque code. -/
structure StorageType where
  code : Int
deriving DecidableEq, Repr

/-- Embedding of Rust `str::to_uppercase` (character-wise upper-casing). -/
def toUppercase (s : String) : String := ⟨s.data.map Char.toUpper⟩

/-- Embedding of Rust `str::to_lowercase` (character-wise lower-casing). -/
def toLowercase (s : String) : String := ⟨s.data.map Char.toLower⟩

/-- `MountType::try_from(&str)` from mount.rs: matches the upper-cased input
against `"CST"` / `"ORCH"`, otherwise `err_box!("invalid mount type: {}")`. -/
def MountType.try_from (value : String) : Except String MountType :=
  let u := toUppercase value
  if u = "CST" then .ok .Cst
  else if u = "ORCH" then .ok .Orch
  else .error ("invalid mount type: " ++ value)

/-- `ConsistencyStrategy::try_from(&str)` from mount.rs: matches the
upper-cased input against `"NONE"` / `"ALWAYS"`, otherwise
`err_box!("invalid strategy type: {}")`. -/
def ConsistencyStrategy.try_from (value : String) : Except String ConsistencyStrategy :=
  let u := toUppercase value
  if u = "NONE" then .ok .None
  else if u = "ALWAYS" then .ok .Always
  else .error ("invalid strategy type: " ++ value)

/-- `Provider::try_from(&str)` from mount.rs: matches the lower-cased input
against `"auto"` / `"oss-hdfs"` / `"opendal"`, otherwise
`err_box!("invalid provider: {}")`. -/
def Provider.try_from (value : String) : Except String Provider :=
  let l := toLowercase value
  if l = "auto" then .ok .Auto
  else if l = "oss-hdfs" then .ok .OssHdfs
  else if l = "opendal" then .ok .Opendal
  else .error ("invalid provider: " ++ value)

/-- `WriteType::try_from(&str)` from mount.rs: matches the input _as is_
(no case conversion) against `"cache"` / `"through"` / `"async_through"` /
`"cache_through"`, otherwise `err_box!("invalid write type: {}")`. -/
def WriteType.try_from (value : String) : Except String WriteType :=
  if value = "cache" then .ok .Cache
  else if value = "through" then .ok .Through
  else if value = "async_through" then .ok .AsyncThrough
  else if value = "cache_through" then .ok .CacheThrough
  else .error ("invalid write type: " ++ value)

end Curvine

namespace Curvine

/-! ## C4 theorems: enum string parsing -/

/-- C4 counterexample: the claim says every enum with string parsing —
including `WriteType` — parses its recognized names case-insensitively, but
`WriteType::try_from` matches the input without any case conversion, so the
upper-cased spelling `"CACHE"` of the recognized name `"cache"` is rejected. -/
theorem c4_counterexample :
    WriteType.try_from "CACHE" = .error ("invalid write type: " ++ "CACHE")
      ∧ WriteType.try_from "cache" = .ok WriteType.Cache := by
  constructor <;> rfl

/-- C4 (amended): `MountType`, `ConsistencyStrategy` and `Provider` parse
their recognized names case-insensitively via `try_from`; `WriteType` parses
its four recognized names exactly (case-sensitively); every unrecognized
input yields a typed error, never a default value; and in particular
`MountType::try_from` accepts both `"cst"` and `"CST"` as `Cst` and rejects
`"bogus"`. -/
theorem c4_enum_parsing (s : String) :
    (toUppercase s = "CST" → MountType.try_from s = .ok MountType.Cst)
    ∧ (toUppercase s = "ORCH" → MountType.try_from s = .ok MountType.Orch)
    ∧ (toUppercase s ≠ "CST" → toUppercase s ≠ "ORCH" →
        MountType.try_from s = .error ("invalid mount type: " ++ s))
    ∧ (toUppercase s = "NONE" →
        ConsistencyStrategy.try_from s = .ok ConsistencyStrategy.None)
    ∧ (toUppercase s = "ALWAYS" →
        ConsistencyStrategy.try_from s = .ok ConsistencyStrategy.Always)
    ∧ (toUppercase s ≠ "NONE" → toUppercase s ≠ "ALWAYS" →
        ConsistencyStrategy.try_from s = .error ("invalid strategy type: " ++ s))
    ∧ (toLowercase s = "auto" → Provider.try_from s = .ok Provider.Auto)
    ∧ (toLowercase s = "oss-hdfs" → Provider.try_from s = .ok Provider.OssHdfs)
    ∧ (toLowercase s = "opendal" → Provider.try_from s = .ok Provider.Opendal)
    ∧ (toLowercase s ≠ "auto" → toLowercase s ≠ "oss-hdfs" → toLowercase s ≠ "opendal" →
        Provider.try_from s = .error ("invalid provider: " ++ s))
    ∧ (s = "cache" → WriteType.try_from s = .ok WriteType.Cache)
    ∧ (s = "through" → WriteType.try_from s = .ok WriteType.Through)
    ∧ (s = "async_through" → WriteType.try_from s = .ok WriteType.AsyncThrough)
    ∧ (s = "cache_through" → WriteType.try_from s = .ok WriteType.CacheThrough)
    ∧ (s ≠ "cache" → s ≠ "through" → s ≠ "async_through" → s ≠ "cache_through" →
        WriteType.try_from s = .error ("invalid write type: " ++ s))
    ∧ MountType.try_from "cst" = .ok MountType.Cst
    ∧ MountType.try_from "CST" = .ok MountType.Cst
    ∧ MountType.try_from "bogus" = .error ("invalid mount type: " ++ "bogus") := by
  exact ⟨fun h => by simp [MountType.try_from, h],
    fun h => by simp [MountType.try_from, h],
    fun h1 h2 => by simp [MountType.try_from, h1, h2],
    fun h => by simp [ConsistencyStrategy.try_from, h],
    fun h => by simp [ConsistencyStrategy.try_from, h],
    fun h1 h2 => by simp [ConsistencyStrategy.try_from, h1, h2],
    fun h => by simp [Provider.try_from, h],
    fun h => by simp [Provider.try_from, h],
    fun h => by simp [Provider.try_from, h],
    fun h1 h2 h3 => by simp [Provider.try_from, h1, h2, h3],
    fun h => by simp [WriteType.try_from, h],
    fun h => by simp [WriteType.try_from, h],
    fun h => by simp [WriteType.try_from, h],
    fun h => by simp [WriteType.try_from, h],
    fun h1 h2 h3 h4 => by simp [WriteType.try_from, h1, h2, h3, h4],
    by rfl, by rfl, by rfl⟩

/-- C4 witness: the amended parsing theorem evaluated at concrete inputs
(`"cSt"` parses case-insensitively to `Cst`; `"bogus"` is rejected). -/
theorem c4_witness :
    MountType.try_from "cSt" = .ok MountType.Cst
      ∧ WriteType.try_from "bogus" = .error ("invalid write type: " ++ "bogus") :=
  ⟨(c4_enum_parsing "cSt").1 (by rfl),
   let h := (c4_enum_parsing "bogus").2.2.2.2.2.2.2.2.2.2.2.2.2.2.1
   h (by decide) (by decide) (by decide) (by decide)⟩

end Curvine

namespace Curvine

/-! ## Provider resolution (curvine-client/src/unified/mod.rs) -/

/-- The compiled-in backend capability set: which cargo features
(`oss-hdfs`, `opendal`) are enabled.  The `#[cfg(feature = ...)]` gates of
`UfsFileSystem::new` are embedded as run-time tests on this record. -/
structure CapabilitySet where
  ossHdfs : Bool
  opendal : Bool
deriving DecidableEq, Repr

/-- The closed enum `UfsFileSystem` from unified/mod.rs; the wrapped concrete
clients (`OssHdfsFileSystem`, `OpendalFileSystem`) are external collaborators,
so each variant is embedded as a bare tag. -/
inductive UfsFileSystem
  | OssHdfs
  | Opendal
deriving DecidableEq, Repr

/-- The error outcomes of `UfsFileSystem::new`, one constructor per
`err_box!` message:
`providerUnavailable b` = "(oss-hdfs|opendal) provider is not enabled",
`invalidProviderConfig v` = "invalid provider in config: v",
`noProviderAvailable` = "no OSS provider is enabled",
`unsupportedScheme s` = "unsupported scheme: s",
`missingScheme` = "missing scheme",
`providerSchemeMismatch p s` = "provider p is not compatible with scheme s". -/
inductive ResolutionError
  | providerUnavailable (backend : UfsFileSystem)
  | invalidProviderConfig (value : String)
  | noProviderAvailable
  | unsupportedScheme (scheme : String)
  | missingScheme
  | providerSchemeMismatch (provider : Provider) (scheme : String)
deriving DecidableEq, Repr

/-- `HashMap::get` on the mount configuration, embedded over an association
list (`conf.get("provider")` in `UfsFileSystem::new`). -/
def confGet (conf : List (String × String)) (key : String) : Option String :=
  (conf.find? (fun kv => kv.1 = key)).map (fun kv => kv.2)

/-- The scheme list of the explicit-`Opendal` match arm of
`UfsFileSystem::new`. -/
def opendalSchemes : List String :=
  ["s3", "oss", "cos", "gcs", "azure", "azblob", "hdfs", "webhdfs"]

/-- The scheme list of the `Auto`-with-non-oss-scheme match arm of
`UfsFileSystem::new`. -/
def autoOpendalSchemes : List String :=
  ["s3", "cos", "gcs", "azure", "azblob", "hdfs", "webhdfs"]

/-- `UfsFileSystem::new(path, conf, provider)` from unified/mod.rs, with the
path replaced by its scheme component (`path.scheme()`, the only part `new`
inspects) and the concrete backend constructors replaced by the selected
variant tag.  The match arms are translated in source order; an arm that is
compiled out by a `#[cfg(feature = ...)]` gate is guarded by the
corresponding `CapabilitySet` flag — in particular the whole
`(Provider::Auto, Some(scheme))`-with-opendal-scheme arm exists only when the
`opendal` feature is enabled, so without it such schemes fall through to the
"unsupported scheme" arm. -/
def UfsFileSystem.new (caps : CapabilitySet) (scheme : Option String)
    (conf : List (String × String)) (provider : Option Provider) :
    Except ResolutionError UfsFileSystem :=
  let p := provider.getD Provider.Auto
  match p, scheme with
  | Provider.OssHdfs, some s =>
      if s = "oss" then
        if caps.ossHdfs then .ok .OssHdfs
        else .error (.providerUnavailable .OssHdfs)
      else .error (.providerSchemeMismatch Provider.OssHdfs s)
  | Provider.Opendal, some s =>
      if s ∈ opendalSchemes then
        if caps.opendal then .ok .Opendal
        else .error (.providerUnavailable .Opendal)
      else .error (.providerSchemeMismatch Provider.Opendal s)
  | Provider.Auto, some s =>
      if s = "oss" then
        match confGet conf "provider" with
        | some v =>
            if v = "oss-hdfs" then
              if caps.ossHdfs then .ok .OssHdfs
              else .error (.providerUnavailable .OssHdfs)
            else if v = "opendal" then
              if caps.opendal then .ok .Opendal
              else .error (.providerUnavailable .Opendal)
            else .error (.invalidProviderConfig v)
        | none =>
            if caps.ossHdfs then .ok .OssHdfs
            else if caps.opendal then .ok .Opendal
            else .error .noProviderAvailable
      else if caps.opendal ∧ s ∈ autoOpendalSchemes then .ok .Opendal
      else .error (.unsupportedScheme s)
  | _, none => .error .missingScheme

end Curvine

namespace Curvine

/-! ## C1, C2, C5 theorems: provider resolution -/

/-- C1: with `preferred = Auto` and scheme `"oss"`, the config key
`"provider"` decides the backend: `"oss-hdfs"` selects OssHdfs (error if that
capability is unavailable), `"opendal"` selects Opendal (error if
unavailable), any other non-empty value is an invalid-provider-config error,
and an absent key applies the default precedence OssHdfs, else Opendal, else
a no-provider-available error. -/
theorem c1_auto_oss_provider_config (caps : CapabilitySet)
    (conf : List (String × String)) :
    (confGet conf "provider" = some "oss-hdfs" →
      UfsFileSystem.new caps (some "oss") conf (some Provider.Auto)
        = if caps.ossHdfs then .ok .OssHdfs
          else .error (.providerUnavailable .OssHdfs))
    ∧ (confGet conf "provider" = some "opendal" →
      UfsFileSystem.new caps (some "oss") conf (some Provider.Auto)
        = if caps.opendal then .ok .Opendal
          else .error (.providerUnavailable .Opendal))
    ∧ (∀ v, confGet conf "provider" = some v → v ≠ "" → v ≠ "oss-hdfs" →
        v ≠ "opendal" →
      UfsFileSystem.new caps (some "oss") conf (some Provider.Auto)
        = .error (.invalidProviderConfig v))
    ∧ (confGet conf "provider" = none →
      UfsFileSystem.new caps (some "oss") conf (some Provider.Auto)
        = if caps.ossHdfs then .ok .OssHdfs
          else if caps.opendal then .ok .Opendal
          else .error .noProviderAvailable) := by
  refine ⟨fun h => ?_, fun h => ?_, fun v h hne h1 h2 => ?_, fun h => ?_⟩ <;>
    simp [UfsFileSystem.new, h, *]

/-- C1 witness: the config override `"opendal"` selects Opendal even though
OssHdfs is available. -/
theorem c1_witness :
    UfsFileSystem.new ⟨true, true⟩ (some "oss") [("provider", "opendal")]
      (some Provider.Auto) = .ok .Opendal := by
  have h := (c1_auto_oss_provider_config ⟨true, true⟩
    [("provider", "opendal")]).2.1 (by rfl)
  simpa using h

/-- C2 counterexample: the claim says that with `preferred = Auto` and a
recognized non-oss scheme, an unavailable Opendal capability yields a
`ProviderUnavailable` error; but the `#[cfg(feature = "opendal")]` gate sits
on the whole match arm, so when that feature is off the scheme falls through
to the catch-all `Auto` arm and the error is `unsupported scheme: s3` — a
reclassification, not an unavailability error. -/
theorem c2_counterexample :
    UfsFileSystem.new ⟨true, false⟩ (some "s3") [] (some Provider.Auto)
        = Except.error (ResolutionError.unsupportedScheme "s3")
      ∧ ResolutionError.unsupportedScheme "s3"
          ≠ ResolutionError.providerUnavailable UfsFileSystem.Opendal :=
  ⟨by rfl, by decide⟩

/-- C2 (amended): with `preferred = Auto` and a recognized non-oss scheme
(s3, cos, gcs, azure, azblob, hdfs, webhdfs), the Opendal backend is selected
when the Opendal capability is available; when it is unavailable the call
fails with an `UnsupportedScheme` error (still an explicit error — never a
silent fallback to another backend). -/
theorem c2_auto_nonoss_scheme (caps : CapabilitySet)
    (conf : List (String × String)) (s : String)
    (hs : s ∈ autoOpendalSchemes) :
    UfsFileSystem.new caps (some s) conf (some Provider.Auto)
      = if caps.opendal then .ok .Opendal
        else .error (.unsupportedScheme s) := by
  obtain ⟨oh, od⟩ := caps
  fin_cases hs <;> cases od <;> simp [UfsFileSystem.new, autoOpendalSchemes]

/-- C2 witness: `Auto` + `"s3"` with Opendal available selects Opendal. -/
theorem c2_witness :
    UfsFileSystem.new ⟨true, true⟩ (some "s3") [] (some Provider.Auto)
      = .ok .Opendal := by
  have h := c2_auto_nonoss_scheme ⟨true, true⟩ [] "s3" (by decide)
  simpa using h

/-- C5: failures are classified by input shape — no scheme yields
`MissingScheme` for every preferred provider; `Auto` with a scheme recognized
by no rule yields `UnsupportedScheme`; and a `(preferred, scheme)` pair not
matched by the selection rules (explicit OssHdfs with a non-oss scheme,
explicit Opendal with an unrecognized scheme) yields
`ProviderSchemeMismatch`. -/
theorem c5_error_classification (caps : CapabilitySet)
    (conf : List (String × String)) :
    (∀ p : Provider,
      UfsFileSystem.new caps none conf (some p) = .error .missingScheme)
    ∧ (∀ s : String, s ≠ "oss" → s ∉ autoOpendalSchemes →
      UfsFileSystem.new caps (some s) conf (some Provider.Auto)
        = .error (.unsupportedScheme s))
    ∧ (∀ s : String, s ≠ "oss" →
      UfsFileSystem.new caps (some s) conf (some Provider.OssHdfs)
        = .error (.providerSchemeMismatch Provider.OssHdfs s))
    ∧ (∀ s : String, s ∉ opendalSchemes →
      UfsFileSystem.new caps (some s) conf (some Provider.Opendal)
        = .error (.providerSchemeMismatch Provider.Opendal s)) := by
  refine ⟨fun p => ?_, fun s h1 h2 => ?_, fun s h => ?_, fun s h => ?_⟩
  · cases p <;> rfl
  · simp [UfsFileSystem.new, h1, h2]
  · simp [UfsFileSystem.new, h]
  · simp [UfsFileSystem.new, h]

/-- C5 witness: `preferred = OssHdfs` with scheme `"s3"` yields the
provider/scheme-mismatch error. -/
theorem c5_witness :
    UfsFileSystem.new ⟨true, true⟩ (some "s3") [] (some Provider.OssHdfs)
      = .error (.providerSchemeMismatch Provider.OssHdfs "s3") :=
  (c5_error_classification ⟨true, true⟩ []).2.2.1 "s3" (by decide)

end Curvine

namespace Curvine

/-! ## Path strings (modelled) and list-of-characters utilities

`curvine_common::fs::Path` is code of this repository that is not under
src/; it is modelled from the spec below.  The utilities in this section
embed the Rust string operations used by mount.rs (`replacen(pat, "", 1)`,
`format!("{}/{}", a, b)`) and the path normalization the spec requires. -/

/-- Join path components with `'/'` separators (no leading or trailing
separator); the character-level form of the path part of a path string. -/
def joinSlash : List (List Char) → List Char
  | [] => []
  | [p] => p
  | p :: q :: rest => p ++ '/' :: joinSlash (q :: rest)

/-- Helper for `splitOnChar`: prepend a character to the first group. -/
def consHead (a : Char) : List (List Char) → List (List Char)
  | [] => [[a]]
  | g :: gs => (a :: g) :: gs

/-- Split a character list at every occurrence of `c` (the groups between
separators, empty groups included). -/
def splitOnChar (c : Char) : List Char → List (List Char)
  | [] => [[]]
  | a :: rest =>
      if a = c then [] :: splitOnChar c rest
      else consHead a (splitOnChar c rest)

/-- Embedding of Rust `str::replacen(pat, "", 1)`: remove the first
(leftmost) occurrence of `pat`, leaving the rest unchanged. -/
def removeFirstOcc (pat : List Char) : List Char → List Char
  | [] => []
  | a :: rest =>
      if pat.isPrefixOf (a :: rest) then (a :: rest).drop pat.length
      else a :: removeFirstOcc pat rest

theorem joinSlash_append {xs ys : List (List Char)} (hx : xs ≠ []) (hy : ys ≠ []) :
    joinSlash (xs ++ ys) = joinSlash xs ++ '/' :: joinSlash ys := by
  induction xs with
  | nil => exact absurd rfl hx
  | cons x xs ih =>
      cases xs with
      | nil =>
          cases ys with
          | nil => exact absurd rfl hy
          | cons y ys => simp [joinSlash]
      | cons x2 xs2 =>
          have h := ih (by simp)
          show x ++ '/' :: joinSlash ((x2 :: xs2) ++ ys)
              = (x ++ '/' :: joinSlash (x2 :: xs2)) ++ '/' :: joinSlash ys
          rw [h, List.append_assoc]
          rfl

theorem splitOnChar_of_not_mem {c : Char} {l : List Char} (h : c ∉ l) :
    splitOnChar c l = [l] := by
  induction l with
  | nil => rfl
  | cons a rest ih =>
      have ha : a ≠ c := fun hac => h (hac ▸ List.mem_cons_self a rest)
      have hr : c ∉ rest := fun hm => h (List.mem_cons_of_mem a hm)
      simp only [splitOnChar, ha, if_false]
      rw [ih hr]
      rfl

theorem splitOnChar_append_sep {c : Char} {x y : List Char} (h : c ∉ x) :
    splitOnChar c (x ++ c :: y) = x :: splitOnChar c y := by
  induction x with
  | nil => simp [splitOnChar]
  | cons a rest ih =>
      have ha : a ≠ c := fun hac => h (hac ▸ List.mem_cons_self a rest)
      have hr : c ∉ rest := fun hm => h (List.mem_cons_of_mem a hm)
      show splitOnChar c (a :: (rest ++ c :: y)) = (a :: rest) :: splitOnChar c y
      simp only [splitOnChar, ha, if_false]
      rw [ih hr]
      rfl

theorem splitOnChar_joinSlash {ps : List (List Char)} (hne : ps ≠ [])
    (hp : ∀ p ∈ ps, '/' ∉ p) :
    splitOnChar '/' (joinSlash ps) = ps := by
  induction ps with
  | nil => exact absurd rfl hne
  | cons p ps ih =>
      cases ps with
      | nil => exact splitOnChar_of_not_mem (hp p (by simp))
      | cons q rest =>
          have h1 : '/' ∉ p := hp p (by simp)
          have h2 := ih (by simp) (fun r hr => hp r (List.mem_cons_of_mem p hr))
          show splitOnChar '/' (p ++ '/' :: joinSlash (q :: rest)) = p :: q :: rest
          rw [splitOnChar_append_sep h1, h2]

theorem splitOnChar_joinSlash_append {ps : List (List Char)} {t : List Char}
    (hne : ps ≠ []) (hp : ∀ p ∈ ps, '/' ∉ p) :
    splitOnChar '/' (joinSlash ps ++ '/' :: t) = ps ++ splitOnChar '/' t := by
  induction ps with
  | nil => exact absurd rfl hne
  | cons p ps ih =>
      cases ps with
      | nil =>
          show splitOnChar '/' (p ++ '/' :: t) = [p] ++ splitOnChar '/' t
          rw [splitOnChar_append_sep (hp p (by simp))]
          rfl
      | cons q rest =>
          have h1 : '/' ∉ p := hp p (by simp)
          have h2 := ih (by simp) (fun r hr => hp r (List.mem_cons_of_mem p hr))
          show splitOnChar '/' ((p ++ '/' :: joinSlash (q :: rest)) ++ '/' :: t)
              = (p :: q :: rest) ++ splitOnChar '/' t
          rw [List.append_assoc]
          show splitOnChar '/' (p ++ '/' :: (joinSlash (q :: rest) ++ '/' :: t))
              = (p :: q :: rest) ++ splitOnChar '/' t
          rw [splitOnChar_append_sep h1, h2]
          rfl

theorem removeFirstOcc_append (pat rest : List Char) :
    removeFirstOcc pat (pat ++ rest) = rest := by
  cases pat with
  | nil =>
      cases rest with
      | nil => rfl
      | cons a t => simp [removeFirstOcc, List.isPrefixOf]
  | cons p pt =>
      have hpre : (p :: pt).isPrefixOf ((p :: pt) ++ rest) = true :=
        List.isPrefixOf_iff_prefix.mpr (List.prefix_append (p :: pt) rest)
      have e : removeFirstOcc (p :: pt) ((p :: pt) ++ rest)
          = if (p :: pt).isPrefixOf ((p :: pt) ++ rest)
            then ((p :: pt) ++ rest).drop (p :: pt).length
            else p :: removeFirstOcc (p :: pt) (pt ++ rest) := rfl
      rw [e, if_pos hpre]
      exact List.drop_left (p :: pt) rest

theorem mem_joinSlash {c : Char} {ps : List (List Char)} (hc : c ≠ '/')
    (hp : ∀ p ∈ ps, c ∉ p) : c ∉ joinSlash ps := by
  induction ps with
  | nil => simp [joinSlash]
  | cons p ps ih =>
      cases ps with
      | nil => exact hp p (by simp)
      | cons q rest =>
          have h1 : c ∉ p := hp p (by simp)
          have h2 := ih (fun r hr => hp r (List.mem_cons_of_mem p hr))
          simp only [joinSlash, List.mem_append, List.mem_cons]
          rintro (h | h | h)
          · exact h1 h
          · exact hc h
          · exact h2 h

end Curvine

namespace Curvine

/-! ## Path model (modelled from the spec) -/

/-- Modelled from the spec: scheme detection for path strings of the form
`<scheme>://bucket-or-container/key...` (spec section 6).  The characters
before the first `':'` form the scheme when they are nonempty and are
followed by `"://"`; otherwise the string has no scheme (a virtual-namespace
path such as `/mnt/s3/...`). -/
def splitScheme (s : List Char) : Option (List Char) × List Char :=
  match s.dropWhile (fun a => a ≠ ':') with
  | ':' :: '/' :: '/' :: rest =>
      let sch := s.takeWhile (fun a => a ≠ ':')
      if sch = [] then (none, s) else (some sch, rest)
  | _ => (none, s)

theorem dropWhile_append_of_all {p : Char → Bool} {x y : List Char}
    (h : ∀ a ∈ x, p a = true) :
    List.dropWhile p (x ++ y) = List.dropWhile p y := by
  induction x with
  | nil => rfl
  | cons a rest ih =>
      have ha := h a (by simp)
      show List.dropWhile p (a :: (rest ++ y)) = List.dropWhile p y
      rw [List.dropWhile_cons_of_pos ha]
      exact ih (fun b hb => h b (List.mem_cons_of_mem a hb))

theorem takeWhile_append_of_all {p : Char → Bool} {x y : List Char}
    (h : ∀ a ∈ x, p a = true) :
    List.takeWhile p (x ++ y) = x ++ List.takeWhile p y := by
  induction x with
  | nil => rfl
  | cons a rest ih =>
      have ha := h a (by simp)
      show List.takeWhile p (a :: (rest ++ y)) = a :: (rest ++ List.takeWhile p y)
      rw [List.takeWhile_cons_of_pos ha]
      rw [ih (fun b hb => h b (List.mem_cons_of_mem a hb))]

theorem splitScheme_of_not_mem {s : List Char} (h : ':' ∉ s) :
    splitScheme s = (none, s) := by
  have hd : List.dropWhile (fun a => a ≠ ':') s = [] := by
    rw [List.dropWhile_eq_nil_iff]
    intro x hx
    simp only [ne_eq, decide_eq_true_eq]
    exact fun hc => h (hc ▸ hx)
  simp only [splitScheme, hd]

theorem splitScheme_scheme {sch rest : List Char} (hne : sch ≠ [])
    (hc : ':' ∉ sch) :
    splitScheme (sch ++ ':' :: '/' :: '/' :: rest) = (some sch, rest) := by
  have hall : ∀ a ∈ sch, (fun a => decide (a ≠ ':')) a = true := by
    intro a ha
    simp only [decide_eq_true_eq]
    exact fun hac => hc (hac ▸ ha)
  have hd : List.dropWhile (fun a => a ≠ ':')
      (sch ++ ':' :: '/' :: '/' :: rest) = ':' :: '/' :: '/' :: rest := by
    rw [dropWhile_append_of_all hall]
    rfl
  have ht : List.takeWhile (fun a => a ≠ ':')
      (sch ++ ':' :: '/' :: '/' :: rest) = sch := by
    rw [takeWhile_append_of_all hall]
    simp [List.takeWhile]
  simp only [splitScheme, hd, ht, hne, if_false]

/-- Modelled from the spec: `curvine_common::fs::Path` (not under src/).  A
path is a `<scheme>://bucket-or-container/key...` string or a scheme-less
absolute virtual-namespace path (spec section 6); parsing normalizes the
path so that translation produces "no double slashes, no dropped segments"
(spec section 3), which is embedded as a list of nonempty `'/'`-separated
components plus an optional scheme. -/
structure Path where
  scheme : Option (List Char)
  parts : List (List Char)
deriving DecidableEq, Repr

/-- Modelled from the spec: `Path::from_str` parses a path string — the
scheme (when `"://"` is present) and the nonempty `'/'`-separated components
after it.  The real `from_str` is fallible; its failure cases (malformed
strings) are outside what the mount claims exercise, so the model is total. -/
def Path.from_str (s : List Char) : Path :=
  let r := splitScheme s
  ⟨r.1, (splitOnChar '/' r.2).filter (fun p => !p.isEmpty)⟩

/-- Modelled from the spec: a path is in the cv (virtual) namespace exactly
when it has no scheme (spec sections 4.4 and 6: ufs paths carry
`<scheme>://...`, cv paths are plain absolute paths). -/
def Path.is_cv (p : Path) : Bool := p.scheme.isNone

/-- Modelled from the spec: the path component of a `Path` (Rust
`path.path()`), the absolute `'/'`-separated component string; for a cv path
this is the whole path string. -/
def Path.path (p : Path) : List Char := '/' :: joinSlash p.parts

/-- Modelled from the spec: the full string form of a `Path` (Rust
`path.full_path()`), scheme included when present. -/
def Path.full_path (p : Path) : List Char :=
  match p.scheme with
  | none => '/' :: joinSlash p.parts
  | some sch => sch ++ ':' :: '/' :: '/' :: joinSlash p.parts

/-- The path-translation error of mount.rs (`err_box!("path {} is not cv
path")` / `err_box!("path {} is not ufs path")`): the input is in the wrong
namespace for the requested direction. -/
inductive PathError
  | pathDirectionError
deriving DecidableEq, Repr

end Curvine

namespace Curvine

/-! ## MountInfo (mount.rs) and path translation -/

/-- `MountInfo` from mount.rs.  Path prefixes are embedded as character
lists; the `properties` map as an association list. -/
structure MountInfo where
  cv_path : List Char
  ufs_path : List Char
  mount_id : Nat
  properties : List (String × String)
  ttl_ms : Int
  ttl_action : TtlAction
  consistency_strategy : ConsistencyStrategy
  storage_type : Option StorageType
  block_size : Option Int
  replicas : Option Int
  mount_type : MountType
  write_type : WriteType
  provider : Option Provider
deriving DecidableEq, Repr

/-- `MountInfo::auto_cache` from mount.rs: `self.ttl_ms > 0`. -/
def MountInfo.auto_cache (m : MountInfo) : Bool := 0 < m.ttl_ms

/-- `MountInfo::get_ttl` from mount.rs: `None` when `auto_cache()`, otherwise
`Some(format!("{}s", self.ttl_ms / 1000))` (Rust `i64` division truncates
toward zero, embedded as `Int.tdiv`). -/
def MountInfo.get_ttl (m : MountInfo) : Option String :=
  if m.auto_cache then none
  else some (toString (Int.tdiv m.ttl_ms 1000) ++ "s")

/-- `MountInfo::get_ufs_path` from mount.rs: reject non-cv inputs, strip the
first occurrence of `cv_path` (`replacen(&self.cv_path, "", 1)` on
`path.path()`), and re-parse `format!("{}/{}", self.ufs_path, sub_path)`. -/
def MountInfo.get_ufs_path (m : MountInfo) (p : Path) : Except PathError Path :=
  if !p.is_cv then .error .pathDirectionError
  else .ok (Path.from_str (m.ufs_path ++ '/' :: removeFirstOcc m.cv_path p.path))

/-- `MountInfo::get_cv_path` from mount.rs: reject cv inputs, strip the first
occurrence of `ufs_path` (`replacen(&self.ufs_path, "", 1)` on
`path.full_path()`), and re-parse `format!("{}/{}", self.cv_path, sub_path)`. -/
def MountInfo.get_cv_path (m : MountInfo) (p : Path) : Except PathError Path :=
  if p.is_cv then .error .pathDirectionError
  else .ok (Path.from_str (m.cv_path ++ '/' :: removeFirstOcc m.ufs_path p.full_path))

/-- `MountInfo::toggle_path` from mount.rs: dispatch on the input's
namespace. -/
def MountInfo.toggle_path (m : MountInfo) (p : Path) : Except PathError Path :=
  if p.is_cv then m.get_ufs_path p else m.get_cv_path p

/-- Well-formed path components: nonempty, slash-free, colon-free. -/
@[reducible] def goodParts (ps : List (List Char)) : Prop :=
  ∀ p ∈ ps, p ≠ [] ∧ '/' ∉ p ∧ ':' ∉ p

theorem filter_nonempty {ps : List (List Char)} (h : ∀ p ∈ ps, p ≠ []) :
    ps.filter (fun p => !p.isEmpty) = ps := by
  rw [List.filter_eq_self]
  intro a ha
  simp [List.isEmpty_iff, h a ha]

theorem splitOnChar_cons_self (c : Char) (t : List Char) :
    splitOnChar c (c :: t) = [] :: splitOnChar c t := by
  simp [splitOnChar]

theorem parse_cv {cb sp : List (List Char)} (hcb : cb ≠ []) (hsp : sp ≠ [])
    (hcbg : goodParts cb) (hspg : goodParts sp) :
    Path.from_str (('/' :: joinSlash cb) ++ '/' :: joinSlash sp)
      = ⟨none, cb ++ sp⟩ := by
  have hcolon : ':' ∉ ('/' :: joinSlash cb) ++ '/' :: joinSlash sp := by
    have h1 : ':' ∉ joinSlash cb :=
      mem_joinSlash (by decide) (fun p hp => (hcbg p hp).2.2)
    have h2 : ':' ∉ joinSlash sp :=
      mem_joinSlash (by decide) (fun p hp => (hspg p hp).2.2)
    simp only [List.cons_append, List.mem_cons, List.mem_append]
    rintro (h | h | h | h)
    · exact absurd h (by decide)
    · exact h1 h
    · exact absurd h (by decide)
    · exact h2 h
  have hsplit : splitOnChar '/' (joinSlash cb ++ '/' :: joinSlash sp)
      = cb ++ sp := by
    rw [splitOnChar_joinSlash_append hcb (fun p hp => (hcbg p hp).2.1),
      splitOnChar_joinSlash hsp (fun p hp => (hspg p hp).2.1)]
  rw [Path.from_str, splitScheme_of_not_mem hcolon]
  show Path.mk none ((splitOnChar '/' ('/' :: (joinSlash cb ++ '/' :: joinSlash sp))).filter
    (fun p => !p.isEmpty)) = ⟨none, cb ++ sp⟩
  rw [splitOnChar_cons_self, hsplit]
  have : (([] : List Char) :: (cb ++ sp)).filter (fun p => !p.isEmpty)
      = cb ++ sp := by
    have hk : ∀ p ∈ cb ++ sp, p ≠ [] := by
      intro p hp
      rcases List.mem_append.mp hp with h | h
      · exact (hcbg p h).1
      · exact (hspg p h).1
    rw [List.filter_cons_of_neg (by simp)]
    exact filter_nonempty hk
  rw [this]

end Curvine

namespace Curvine

theorem filter_in_between {cb sp : List (List Char)}
    (hcbg : ∀ p ∈ cb, p ≠ []) (hspg : ∀ p ∈ sp, p ≠ []) :
    (cb ++ ([] :: sp) : List (List Char)).filter (fun p => !p.isEmpty)
      = cb ++ sp := by
  rw [List.filter_append, List.filter_cons_of_neg (by simp),
    filter_nonempty hcbg, filter_nonempty hspg]

theorem parse_cv2 {cb sp : List (List Char)} (hcb : cb ≠ []) (hsp : sp ≠ [])
    (hcbg : goodParts cb) (hspg : goodParts sp) :
    Path.from_str (('/' :: joinSlash cb) ++ '/' :: '/' :: joinSlash sp)
      = ⟨none, cb ++ sp⟩ := by
  have hcolon : ':' ∉ ('/' :: joinSlash cb) ++ '/' :: '/' :: joinSlash sp := by
    have h1 : ':' ∉ joinSlash cb :=
      mem_joinSlash (by decide) (fun p hp => (hcbg p hp).2.2)
    have h2 : ':' ∉ joinSlash sp :=
      mem_joinSlash (by decide) (fun p hp => (hspg p hp).2.2)
    simp only [List.cons_append, List.mem_cons, List.mem_append]
    rintro (h | h | h | h | h)
    · exact absurd h (by decide)
    · exact h1 h
    · exact absurd h (by decide)
    · exact absurd h (by decide)
    · exact h2 h
  have hsplit : splitOnChar '/' (joinSlash cb ++ '/' :: '/' :: joinSlash sp)
      = cb ++ ([] :: sp) := by
    rw [splitOnChar_joinSlash_append hcb (fun p hp => (hcbg p hp).2.1),
      splitOnChar_cons_self,
      splitOnChar_joinSlash hsp (fun p hp => (hspg p hp).2.1)]
  rw [Path.from_str, splitScheme_of_not_mem hcolon]
  show Path.mk none
    ((splitOnChar '/' ('/' :: (joinSlash cb ++ '/' :: '/' :: joinSlash sp))).filter
      (fun p => !p.isEmpty)) = ⟨none, cb ++ sp⟩
  rw [splitOnChar_cons_self, hsplit,
    List.filter_cons_of_neg (by simp),
    filter_in_between (fun p hp => (hcbg p hp).1) (fun p hp => (hspg p hp).1)]

theorem parse_ufs {sch : List Char} {ub sp : List (List Char)}
    (hsch : sch ≠ []) (hschc : ':' ∉ sch) (hub : ub ≠ []) (hsp : sp ≠ [])
    (hubg : goodParts ub) (hspg : goodParts sp) :
    Path.from_str ((sch ++ ':' :: '/' :: '/' :: joinSlash ub) ++ '/' :: joinSlash sp)
      = ⟨some sch, ub ++ sp⟩ := by
  have e : (sch ++ ':' :: '/' :: '/' :: joinSlash ub) ++ '/' :: joinSlash sp
      = sch ++ ':' :: '/' :: '/' :: (joinSlash ub ++ '/' :: joinSlash sp) := by
    rw [List.append_assoc]
    rfl
  have hsplit : splitOnChar '/' (joinSlash ub ++ '/' :: joinSlash sp)
      = ub ++ sp := by
    rw [splitOnChar_joinSlash_append hub (fun p hp => (hubg p hp).2.1),
      splitOnChar_joinSlash hsp (fun p hp => (hspg p hp).2.1)]
  rw [e, Path.from_str, splitScheme_scheme hsch hschc]
  show Path.mk (some sch)
    ((splitOnChar '/' (joinSlash ub ++ '/' :: joinSlash sp)).filter
      (fun p => !p.isEmpty)) = ⟨some sch, ub ++ sp⟩
  rw [hsplit]
  have hk : ∀ p ∈ ub ++ sp, p ≠ [] := by
    intro p hp
    rcases List.mem_append.mp hp with h | h
    · exact (hubg p h).1
    · exact (hspg p h).1
  rw [filter_nonempty hk]

theorem parse_ufs2 {sch : List Char} {ub sp : List (List Char)}
    (hsch : sch ≠ []) (hschc : ':' ∉ sch) (hub : ub ≠ []) (hsp : sp ≠ [])
    (hubg : goodParts ub) (hspg : goodParts sp) :
    Path.from_str ((sch ++ ':' :: '/' :: '/' :: joinSlash ub) ++ '/' :: '/' :: joinSlash sp)
      = ⟨some sch, ub ++ sp⟩ := by
  have e : (sch ++ ':' :: '/' :: '/' :: joinSlash ub) ++ '/' :: '/' :: joinSlash sp
      = sch ++ ':' :: '/' :: '/' :: (joinSlash ub ++ '/' :: '/' :: joinSlash sp) := by
    rw [List.append_assoc]
    rfl
  have hsplit : splitOnChar '/' (joinSlash ub ++ '/' :: '/' :: joinSlash sp)
      = ub ++ ([] :: sp) := by
    rw [splitOnChar_joinSlash_append hub (fun p hp => (hubg p hp).2.1),
      splitOnChar_cons_self,
      splitOnChar_joinSlash hsp (fun p hp => (hspg p hp).2.1)]
  rw [e, Path.from_str, splitScheme_scheme hsch hschc]
  show Path.mk (some sch)
    ((splitOnChar '/' (joinSlash ub ++ '/' :: '/' :: joinSlash sp)).filter
      (fun p => !p.isEmpty)) = ⟨some sch, ub ++ sp⟩
  rw [hsplit,
    filter_in_between (fun p hp => (hubg p hp).1) (fun p hp => (hspg p hp).1)]

end Curvine

namespace Curvine

theorem get_cv_path_core (m : MountInfo) {sch : List Char}
    {ub cb sp : List (List Char)}
    (hsch : sch ≠ []) (hschc : ':' ∉ sch)
    (hub : ub ≠ []) (hcb : cb ≠ []) (hsp : sp ≠ [])
    (hubg : goodParts ub) (hcbg : goodParts cb) (hspg : goodParts sp)
    (hmu : m.ufs_path = sch ++ ':' :: '/' :: '/' :: joinSlash ub)
    (hmc : m.cv_path = '/' :: joinSlash cb) :
    m.get_cv_path ⟨some sch, ub ++ sp⟩ = .ok ⟨none, cb ++ sp⟩ := by
  have hfull : Path.full_path ⟨some sch, ub ++ sp⟩
      = (sch ++ ':' :: '/' :: '/' :: joinSlash ub) ++ '/' :: joinSlash sp := by
    show sch ++ ':' :: '/' :: '/' :: joinSlash (ub ++ sp) = _
    rw [joinSlash_append hub hsp, List.append_assoc]
    rfl
  have hrem : removeFirstOcc m.ufs_path (Path.full_path ⟨some sch, ub ++ sp⟩)
      = '/' :: joinSlash sp := by
    rw [hfull, hmu]
    exact removeFirstOcc_append _ _
  have e : m.get_cv_path ⟨some sch, ub ++ sp⟩
      = .ok (Path.from_str (m.cv_path ++ '/' :: removeFirstOcc m.ufs_path
          (Path.full_path ⟨some sch, ub ++ sp⟩))) := rfl
  rw [e, hrem, hmc, parse_cv2 hcb hsp hcbg hspg]

theorem get_ufs_path_core (m : MountInfo) {sch : List Char}
    {ub cb sp : List (List Char)}
    (hsch : sch ≠ []) (hschc : ':' ∉ sch)
    (hub : ub ≠ []) (hcb : cb ≠ []) (hsp : sp ≠ [])
    (hubg : goodParts ub) (hcbg : goodParts cb) (hspg : goodParts sp)
    (hmu : m.ufs_path = sch ++ ':' :: '/' :: '/' :: joinSlash ub)
    (hmc : m.cv_path = '/' :: joinSlash cb) :
    m.get_ufs_path ⟨none, cb ++ sp⟩ = .ok ⟨some sch, ub ++ sp⟩ := by
  have hpath : Path.path ⟨none, cb ++ sp⟩
      = ('/' :: joinSlash cb) ++ '/' :: joinSlash sp := by
    show '/' :: joinSlash (cb ++ sp) = _
    rw [joinSlash_append hcb hsp]
    rfl
  have hrem : removeFirstOcc m.cv_path (Path.path ⟨none, cb ++ sp⟩)
      = '/' :: joinSlash sp := by
    rw [hpath, hmc]
    exact removeFirstOcc_append _ _
  have e : m.get_ufs_path ⟨none, cb ++ sp⟩
      = .ok (Path.from_str (m.ufs_path ++ '/' :: removeFirstOcc m.cv_path
          (Path.path ⟨none, cb ++ sp⟩))) := rfl
  rw [e, hrem, hmu, parse_ufs2 hsch hschc hub hsp hubg hspg]

end Curvine

namespace Curvine

/-! ## C3, C6, C7 theorems: path translation -/

/-- C3: for a mount record whose ufs prefix is `U = sch://u1/../uk` and
whose cv prefix is `C = /c1/../cj` (well-formed absolute prefixes), and for
any well-formed sub-path `s = s1/../sn`: `get_cv_path (U + "/" + s)` returns
exactly `C + "/" + s`, `get_ufs_path (C + "/" + s)` returns exactly
`U + "/" + s`, and the returned paths print with no double slashes and no
dropped segments (their full string forms are exactly the concatenations). -/
theorem c3_round_trip (m : MountInfo) (sch : List Char)
    (ub cb sp : List (List Char))
    (hsch : sch ≠ []) (hschc : ':' ∉ sch)
    (hub : ub ≠ []) (hcb : cb ≠ []) (hsp : sp ≠ [])
    (hubg : goodParts ub) (hcbg : goodParts cb) (hspg : goodParts sp)
    (hmu : m.ufs_path = sch ++ ':' :: '/' :: '/' :: joinSlash ub)
    (hmc : m.cv_path = '/' :: joinSlash cb) :
    m.get_cv_path (Path.from_str (m.ufs_path ++ '/' :: joinSlash sp))
        = .ok (Path.from_str (m.cv_path ++ '/' :: joinSlash sp))
    ∧ m.get_ufs_path (Path.from_str (m.cv_path ++ '/' :: joinSlash sp))
        = .ok (Path.from_str (m.ufs_path ++ '/' :: joinSlash sp))
    ∧ (Path.from_str (m.cv_path ++ '/' :: joinSlash sp)).full_path
        = m.cv_path ++ '/' :: joinSlash sp
    ∧ (Path.from_str (m.ufs_path ++ '/' :: joinSlash sp)).full_path
        = m.ufs_path ++ '/' :: joinSlash sp := by
  have hu : Path.from_str (m.ufs_path ++ '/' :: joinSlash sp)
      = ⟨some sch, ub ++ sp⟩ := by
    rw [hmu]
    exact parse_ufs hsch hschc hub hsp hubg hspg
  have hcv : Path.from_str (m.cv_path ++ '/' :: joinSlash sp)
      = ⟨none, cb ++ sp⟩ := by
    rw [hmc]
    exact parse_cv hcb hsp hcbg hspg
  refine ⟨?_, ?_, ?_, ?_⟩
  · rw [hu, hcv]
    exact get_cv_path_core m hsch hschc hub hcb hsp hubg hcbg hspg hmu hmc
  · rw [hcv, hu]
    exact get_ufs_path_core m hsch hschc hub hcb hsp hubg hcbg hspg hmu hmc
  · rw [hcv]
    show '/' :: joinSlash (cb ++ sp) = m.cv_path ++ '/' :: joinSlash sp
    rw [joinSlash_append hcb hsp, hmc]
    rfl
  · rw [hu]
    show sch ++ ':' :: '/' :: '/' :: joinSlash (ub ++ sp)
        = m.ufs_path ++ '/' :: joinSlash sp
    rw [joinSlash_append hub hsp, hmu, List.append_assoc]
    rfl

/-- Concrete scheme for witnesses: `"s3"`. -/
def sampleSch : List Char := ['s', '3']

/-- Concrete ufs prefix components for witnesses: `"b"`. -/
def sampleUb : List (List Char) := [['b']]

/-- Concrete cv prefix components for witnesses: `"m"`. -/
def sampleCb : List (List Char) := [['m']]

/-- Concrete sub-path components for witnesses: `"f"`. -/
def sampleSp : List (List Char) := [['f']]

/-- Concrete mount record for witnesses:
`{cv_path = "/m", ufs_path = "s3://b"}` with default policy fields. -/
def sampleMount : MountInfo :=
  ⟨'/' :: joinSlash sampleCb,
   sampleSch ++ ':' :: '/' :: '/' :: joinSlash sampleUb,
   0, [], 0, TtlAction.None, ConsistencyStrategy.None, none, none, none,
   MountType.Cst, WriteType.AsyncThrough, none⟩

/-- C3 witness: the round trip evaluated on the concrete mount
`{ufs_path = "s3://b", cv_path = "/m"}` and sub-path `"f"`. -/
theorem c3_witness :
    sampleMount.get_cv_path
        (Path.from_str (sampleMount.ufs_path ++ '/' :: joinSlash sampleSp))
      = .ok (Path.from_str (sampleMount.cv_path ++ '/' :: joinSlash sampleSp)) :=
  (c3_round_trip sampleMount sampleSch sampleUb sampleCb sampleSp
    (by decide) (by decide) (by decide) (by decide) (by decide)
    (by decide) (by decide) (by decide) rfl rfl).1

/-- C6: `get_ufs_path` fails with the path-direction error on every input
that is not in the cv namespace, `get_cv_path` fails with the path-direction
error on every input that is in the cv namespace, and each succeeds only on
inputs in its expected namespace (both are pure functions, so nothing is
mutated on failure). -/
theorem c6_direction_errors (m : MountInfo) (p : Path) :
    (p.is_cv = false → m.get_ufs_path p = .error .pathDirectionError)
    ∧ (p.is_cv = true → m.get_cv_path p = .error .pathDirectionError)
    ∧ (∀ q, m.get_ufs_path p = .ok q → p.is_cv = true)
    ∧ (∀ q, m.get_cv_path p = .ok q → p.is_cv = false) := by
  refine ⟨fun h => ?_, fun h => ?_, fun q hq => ?_, fun q hq => ?_⟩
  · simp [MountInfo.get_ufs_path, h]
  · simp [MountInfo.get_cv_path, h]
  · by_contra hc
    have hf : p.is_cv = false := by simpa using hc
    simp [MountInfo.get_ufs_path, hf] at hq
  · by_contra hc
    have ht : p.is_cv = true := by simpa using hc
    simp [MountInfo.get_cv_path, ht] at hq

/-- C7: toggling twice is the identity on every path that lies under either
prefix of the mount record (the ufs-side path `U + "/" + s` and the cv-side
path `C + "/" + s`). -/
theorem c7_toggle_involution (m : MountInfo) (sch : List Char)
    (ub cb sp : List (List Char))
    (hsch : sch ≠ []) (hschc : ':' ∉ sch)
    (hub : ub ≠ []) (hcb : cb ≠ []) (hsp : sp ≠ [])
    (hubg : goodParts ub) (hcbg : goodParts cb) (hspg : goodParts sp)
    (hmu : m.ufs_path = sch ++ ':' :: '/' :: '/' :: joinSlash ub)
    (hmc : m.cv_path = '/' :: joinSlash cb) :
    (m.toggle_path (Path.from_str (m.ufs_path ++ '/' :: joinSlash sp))).bind
        m.toggle_path
      = .ok (Path.from_str (m.ufs_path ++ '/' :: joinSlash sp))
    ∧ (m.toggle_path (Path.from_str (m.cv_path ++ '/' :: joinSlash sp))).bind
        m.toggle_path
      = .ok (Path.from_str (m.cv_path ++ '/' :: joinSlash sp)) := by
  have hu : Path.from_str (m.ufs_path ++ '/' :: joinSlash sp)
      = ⟨some sch, ub ++ sp⟩ := by
    rw [hmu]
    exact parse_ufs hsch hschc hub hsp hubg hspg
  have hcv : Path.from_str (m.cv_path ++ '/' :: joinSlash sp)
      = ⟨none, cb ++ sp⟩ := by
    rw [hmc]
    exact parse_cv hcb hsp hcbg hspg
  constructor
  · rw [hu]
    have h1 : m.toggle_path ⟨some sch, ub ++ sp⟩ = .ok ⟨none, cb ++ sp⟩ :=
      get_cv_path_core m hsch hschc hub hcb hsp hubg hcbg hspg hmu hmc
    rw [h1]
    exact get_ufs_path_core m hsch hschc hub hcb hsp hubg hcbg hspg hmu hmc
  · rw [hcv]
    have h1 : m.toggle_path ⟨none, cb ++ sp⟩ = .ok ⟨some sch, ub ++ sp⟩ :=
      get_ufs_path_core m hsch hschc hub hcb hsp hubg hcbg hspg hmu hmc
    rw [h1]
    exact get_cv_path_core m hsch hschc hub hcb hsp hubg hcbg hspg hmu hmc

end Curvine

namespace Curvine

/-- C6 witness: the direction checks evaluated on the concrete mount
`{cv_path = "/m", ufs_path = "s3://b"}`: a scheme-carrying path is rejected
by `get_ufs_path`, a scheme-less path is rejected by `get_cv_path`, and the
success cases land in the expected namespaces. -/
theorem c6_witness :
    sampleMount.get_ufs_path ⟨some ['s', '3'], [['b'], ['f']]⟩
        = .error .pathDirectionError
    ∧ sampleMount.get_cv_path ⟨none, [['m'], ['f']]⟩
        = .error .pathDirectionError
    ∧ (⟨none, [['m'], ['f']]⟩ : Path).is_cv = true
    ∧ (⟨some ['s', '3'], [['b'], ['f']]⟩ : Path).is_cv = false :=
  ⟨(c6_direction_errors sampleMount ⟨some ['s', '3'], [['b'], ['f']]⟩).1 rfl,
   (c6_direction_errors sampleMount ⟨none, [['m'], ['f']]⟩).2.1 rfl,
   (c6_direction_errors sampleMount ⟨none, [['m'], ['f']]⟩).2.2.1
     (Path.from_str (sampleMount.ufs_path ++ '/' :: removeFirstOcc
       sampleMount.cv_path (Path.path ⟨none, [['m'], ['f']]⟩))) rfl,
   (c6_direction_errors sampleMount ⟨some ['s', '3'], [['b'], ['f']]⟩).2.2.2
     (Path.from_str (sampleMount.cv_path ++ '/' :: removeFirstOcc
       sampleMount.ufs_path (Path.full_path ⟨some ['s', '3'], [['b'], ['f']]⟩))) rfl⟩

/-- C7 witness: the double toggle evaluated on the concrete mount
`{cv_path = "/m", ufs_path = "s3://b"}` and the ufs-side path `s3://b/f`. -/
theorem c7_witness :
    (sampleMount.toggle_path
        (Path.from_str (sampleMount.ufs_path ++ '/' :: joinSlash sampleSp))).bind
        sampleMount.toggle_path
      = .ok (Path.from_str (sampleMount.ufs_path ++ '/' :: joinSlash sampleSp)) :=
  (c7_toggle_involution sampleMount sampleSch sampleUb sampleCb sampleSp
    (by decide) (by decide) (by decide) (by decide) (by decide)
    (by decide) (by decide) (by decide) rfl rfl).1

end Curvine

namespace Curvine

/-! ## MountOptions and builder (mount.rs) -/

/-- Modelled from the spec: `orpc::common::DurationUnit::DAY` (external to
src/) is one day expressed in milliseconds, per the spec's
"`ttl_ms = 7 days`" builder default. -/
def DurationUnit.DAY : Int := 86400000

/-- `MountOptions` from mount.rs. -/
structure MountOptions where
  update : Bool
  add_properties : List (String × String)
  ttl_ms : Option Int
  ttl_action : Option TtlAction
  consistency_strategy : Option ConsistencyStrategy
  storage_type : Option StorageType
  block_size : Option Int
  replicas : Option Int
  mount_type : MountType
  remove_properties : List String
  write_type : WriteType
  provider : Option Provider
deriving DecidableEq, Repr

/-- `MountOptionsBuilder` from mount.rs (same fields as `MountOptions`). -/
structure MountOptionsBuilder where
  update : Bool
  add_properties : List (String × String)
  ttl_ms : Option Int
  ttl_action : Option TtlAction
  consistency_strategy : Option ConsistencyStrategy
  storage_type : Option StorageType
  block_size : Option Int
  replicas : Option Int
  mount_type : MountType
  remove_properties : List String
  write_type : WriteType
  provider : Option Provider
deriving DecidableEq, Repr

/-- The `#[derive(Default)]` value of `MountOptionsBuilder`: `false`/empty/
`None` fields, with the `#[default]`-marked enum variants `MountType::Cst`
and `WriteType::AsyncThrough`. -/
def MountOptionsBuilder.derivedDefault : MountOptionsBuilder :=
  ⟨false, [], none, none, none, none, none, none, MountType.Cst, [],
   WriteType.AsyncThrough, none⟩

/-- `MountOptionsBuilder::new` from mount.rs: the derived default with
`write_type = AsyncThrough`, `ttl_ms = Some(7 * DurationUnit::DAY)`,
`ttl_action = Some(TtlAction::Delete)`. -/
def MountOptionsBuilder.new : MountOptionsBuilder :=
  ⟨MountOptionsBuilder.derivedDefault.update,
   MountOptionsBuilder.derivedDefault.add_properties,
   some (7 * DurationUnit.DAY),
   some TtlAction.Delete,
   MountOptionsBuilder.derivedDefault.consistency_strategy,
   MountOptionsBuilder.derivedDefault.storage_type,
   MountOptionsBuilder.derivedDefault.block_size,
   MountOptionsBuilder.derivedDefault.replicas,
   MountOptionsBuilder.derivedDefault.mount_type,
   MountOptionsBuilder.derivedDefault.remove_properties,
   WriteType.AsyncThrough,
   MountOptionsBuilder.derivedDefault.provider⟩

/-- `MountOptionsBuilder::build` from mount.rs: field-for-field copy into
`MountOptions`. -/
def MountOptionsBuilder.build (b : MountOptionsBuilder) : MountOptions :=
  ⟨b.update, b.add_properties, b.ttl_ms, b.ttl_action, b.consistency_strategy,
   b.storage_type, b.block_size, b.replicas, b.mount_type,
   b.remove_properties, b.write_type, b.provider⟩

/-- `MountOptions::builder` from mount.rs: `MountOptionsBuilder::new()`. -/
def MountOptions.builder : MountOptionsBuilder := MountOptionsBuilder.new

/-- `MountOptions::to_info(mount_id, cv_path, ufs_path)` from mount.rs:
build the `MountInfo`, defaulting `ttl_ms` to `0`, `ttl_action` to
`TtlAction::None` and `consistency_strategy` to `ConsistencyStrategy::None`;
`update` and `remove_properties` are not consulted. -/
def MountOptions.to_info (o : MountOptions) (mount_id : Nat)
    (cv_path ufs_path : List Char) : MountInfo :=
  ⟨cv_path, ufs_path, mount_id, o.add_properties,
   o.ttl_ms.getD 0,
   o.ttl_action.getD TtlAction.None,
   o.consistency_strategy.getD ConsistencyStrategy.None,
   o.storage_type, o.block_size, o.replicas, o.mount_type, o.write_type,
   o.provider⟩

end Curvine

namespace Curvine

/-! ## C8, C9, C10 theorems: options, defaults, ttl -/

/-- C8: a `MountOptions` built from `MountOptionsBuilder::new()` (also
reachable as `MountOptions::builder()`) with no setter calls has
`write_type = AsyncThrough`, `ttl_ms = 7 days` in milliseconds (604800000)
and `ttl_action = Delete`, and `to_info` carries those same defaults into
the resulting `MountInfo`. -/
theorem c8_builder_defaults (id : Nat) (cv ufs : List Char) :
    MountOptionsBuilder.new.build.write_type = WriteType.AsyncThrough
    ∧ MountOptionsBuilder.new.build.ttl_ms = some (7 * DurationUnit.DAY)
    ∧ 7 * DurationUnit.DAY = 604800000
    ∧ MountOptionsBuilder.new.build.ttl_action = some TtlAction.Delete
    ∧ MountOptions.builder = MountOptionsBuilder.new
    ∧ (MountOptionsBuilder.new.build.to_info id cv ufs).write_type
        = WriteType.AsyncThrough
    ∧ (MountOptionsBuilder.new.build.to_info id cv ufs).ttl_ms = 604800000
    ∧ (MountOptionsBuilder.new.build.to_info id cv ufs).ttl_action
        = TtlAction.Delete := by
  refine ⟨rfl, rfl, by decide, rfl, rfl, rfl, ?_, rfl⟩
  show (7 * DurationUnit.DAY : Int) = 604800000
  decide

/-- C9: `get_ttl` returns `None` exactly when `ttl_ms > 0` (i.e. exactly
when `auto_cache()` holds), and otherwise returns `Some` of the string
`ttl_ms / 1000` (truncated integer division) followed by `"s"`. -/
theorem c9_get_ttl (m : MountInfo) :
    (m.get_ttl = none ↔ 0 < m.ttl_ms)
    ∧ (m.get_ttl = none ↔ m.auto_cache = true)
    ∧ (m.ttl_ms ≤ 0 →
        m.get_ttl = some (toString (Int.tdiv m.ttl_ms 1000) ++ "s")) := by
  by_cases h : 0 < m.ttl_ms
  · refine ⟨?_, ?_, fun hle => absurd h (not_lt.mpr hle)⟩ <;>
      simp [MountInfo.get_ttl, MountInfo.auto_cache, h]
  · refine ⟨?_, ?_, fun hle => ?_⟩ <;>
      simp [MountInfo.get_ttl, MountInfo.auto_cache, h]

/-- C9 witness: at `ttl_ms = -1500` the ttl string is produced (with
truncated division, `-1500 / 1000 = -1`). -/
theorem c9_witness :
    (⟨[], [], 0, [], -1500, TtlAction.None, ConsistencyStrategy.None, none,
        none, none, MountType.Cst, WriteType.AsyncThrough, none⟩
      : MountInfo).get_ttl
      = some (toString (Int.tdiv (-1500 : Int) 1000) ++ "s") :=
  (c9_get_ttl _).2.2 (by decide)

/-- C10: `to_info` stores exactly `add_properties` as `properties`, never
reads `remove_properties` or `update`, defaults an absent `ttl_ms` to `0`
and an absent `ttl_action` to `TtlAction::None` (not the builder defaults),
defaults an absent `consistency_strategy` to `ConsistencyStrategy::None`
analogously, and copies every remaining field through unchanged. -/
theorem c10_to_info (o : MountOptions) (id : Nat) (cv ufs : List Char)
    (u : Bool) (rp : List String) :
    (o.to_info id cv ufs).properties = o.add_properties
    ∧ (o.to_info id cv ufs).ttl_ms = o.ttl_ms.getD 0
    ∧ (o.ttl_ms = none → (o.to_info id cv ufs).ttl_ms = 0)
    ∧ (o.to_info id cv ufs).ttl_action = o.ttl_action.getD TtlAction.None
    ∧ (o.ttl_action = none → (o.to_info id cv ufs).ttl_action = TtlAction.None)
    ∧ (o.to_info id cv ufs).consistency_strategy
        = o.consistency_strategy.getD ConsistencyStrategy.None
    ∧ (o.to_info id cv ufs).cv_path = cv
    ∧ (o.to_info id cv ufs).ufs_path = ufs
    ∧ (o.to_info id cv ufs).mount_id = id
    ∧ (o.to_info id cv ufs).storage_type = o.storage_type
    ∧ (o.to_info id cv ufs).block_size = o.block_size
    ∧ (o.to_info id cv ufs).replicas = o.replicas
    ∧ (o.to_info id cv ufs).mount_type = o.mount_type
    ∧ (o.to_info id cv ufs).write_type = o.write_type
    ∧ (o.to_info id cv ufs).provider = o.provider
    ∧ (MountOptions.mk u o.add_properties o.ttl_ms o.ttl_action
        o.consistency_strategy o.storage_type o.block_size o.replicas
        o.mount_type rp o.write_type o.provider).to_info id cv ufs
        = o.to_info id cv ufs := by
  refine ⟨rfl, rfl, fun h => ?_, rfl, fun h => ?_, rfl, rfl, rfl, rfl, rfl,
    rfl, rfl, rfl, rfl, rfl, rfl⟩
  · simp [MountOptions.to_info, h]
  · simp [MountOptions.to_info, h]

/-- C10 witness: `to_info` on options with absent `ttl_ms`/`ttl_action`
yields `ttl_ms = 0` and `ttl_action = TtlAction.None`. -/
theorem c10_witness :
    ((⟨false, [], none, none, none, none, none, none, MountType.Cst, [],
        WriteType.Cache, none⟩ : MountOptions).to_info 1 ['/', 'a'] ['s']).ttl_ms
        = 0
    ∧ ((⟨false, [], none, none, none, none, none, none, MountType.Cst, [],
        WriteType.Cache, none⟩ : MountOptions).to_info 1 ['/', 'a'] ['s']).ttl_action
        = TtlAction.None :=
  ⟨(c10_to_info _ 1 _ _ false []).2.2.1 rfl,
   (c10_to_info _ 1 _ _ false []).2.2.2.2.1 rfl⟩

end Curvine
